import Mathlib

set_option linter.unusedVariables false

/-! Verification development for the mtg-eff-sandbox effect-tree interpreter.

The embedding follows the three Rust source files:
* `src/effect_value.rs` — `EffectValue` (a transparent wrapper around a
  `serde_json::Value`) and `EffectTree { result, children }`;
* `src/interpreter.rs` — `Interpreter { game, effects, position }` and its
  `apply` method with a replay branch and a fresh-execution branch;
* `src/lib.rs` — the `Game` state, replacement-effect dispatch
  (`handle_replacement`), and the domain effects `gain_life`, `draw_card`,
  `replace_draw_with_discard`, `draw_cards`.

Machine integers do not appear (the counters and cursor are `usize` used as
plain counts); panics (`unwrap` on encode/decode, `todo!()` for an unresolved
replacement choice, `unwrap` on popping an empty hand) are modelled as an
explicit error channel `RunErr` threaded through every run. -/

/-- Model of a `serde_json::Value` in the shapes this program produces
(all numbers occurring in the program are non-negative integers). -/
inductive Json : Type where
  | null : Json
  | num (n : Nat) : Json
  | str (s : String) : Json
  | arr (xs : List Json) : Json
  | obj (fields : List (String × Json)) : Json

/-- The result types `T : Serialize + DeserializeOwned` that the program
routes through `Interpreter::apply` (`i32` literals, `String`,
`Result<String, String>`, `Result<Vec<String>, String>`, `()`), together
with `mapNSK`, a representative serializable type whose
`serde_json::to_value` can fail: a map with non-string keys
(`HashMap<Vec<String>, String>`). -/
inductive Ty : Type where
  | nat | str | unit | resStr | resListStr | mapNSK
deriving DecidableEq

/-- Lean denotation of each modelled Rust result type. -/
def Ty.den : Ty → Type
  | .nat => Nat
  | .str => String
  | .unit => Unit
  | .resStr => Except String String
  | .resListStr => Except String (List String)
  | .mapNSK => List (List String × String)

/-- Decode a JSON array as a `Vec<String>`: every element must be a string. -/
def decStrList : List Json → Option (List String)
  | [] => some []
  | .str s :: rest => (decStrList rest).map (fun xs => s :: xs)
  | _ => none

/-- `serde_json::to_value` (the encoding half of `EffectValue::new`,
`src/effect_value.rs` lines 14-21).  `Result` uses serde's externally tagged
form; `()` serializes to `null`; serializing a map with non-string keys
fails whenever the map is non-empty (the key must actually be emitted). -/
def enc : (t : Ty) → Ty.den t → Option Json
  | .nat, n => some (.num n)
  | .str, s => some (.str s)
  | .unit, _ => some .null
  | .resStr, .ok s => some (.obj [("Ok", .str s)])
  | .resStr, .error e => some (.obj [("Err", .str e)])
  | .resListStr, .ok xs => some (.obj [("Ok", .arr (xs.map Json.str))])
  | .resListStr, .error e => some (.obj [("Err", .str e)])
  | .mapNSK, [] => some (.obj [])
  | .mapNSK, _ :: _ => none

/-- `serde_json::from_value` (the decoding half, `EffectValue::get`,
`src/effect_value.rs` lines 23-25): succeeds exactly when the stored value
has the serialized shape the requested type expects. -/
def dec : (t : Ty) → Json → Option (Ty.den t)
  | .nat, .num n => some n
  | .str, .str s => some s
  | .unit, .null => some ()
  | .resStr, .obj [("Ok", .str s)] => some (.ok s)
  | .resStr, .obj [("Err", .str e)] => some (.error e)
  | .resListStr, .obj [("Ok", .arr js)] =>
      match decStrList js with
      | some xs => some (.ok xs)
      | none => none
  | .resListStr, .obj [("Err", .str e)] => some (.error e)
  | .mapNSK, .obj [] => some []
  | _, _ => none

/-- `EffectTree { result: EffectValue, children: Vec<EffectTree> }` from
`src/effect_value.rs` lines 29-33.  `EffectValue` is
`#[serde(transparent)]` around a `serde_json::Value`, so `result` is stored
directly as that value. -/
inductive EffectTree : Type where
  | mk (result : Json) (children : List EffectTree) : EffectTree

def EffectTree.result : EffectTree → Json
  | .mk r _ => r

def EffectTree.children : EffectTree → List EffectTree
  | .mk _ c => c

/-- The shared `Game` state from `src/lib.rs` lines 11-19.  The
`HashMap<String, Vec<serde_json::Value>>` of replacement effects is modelled
as an association list (the program only ever looks entries up by key and
appends to an entry, so the map's iteration order is never observed). -/
structure Game where
  life : Nat
  library : List String
  hand : List String
  graveyard : List String
  replacement_effects : List (String × List Json)

/-- `Interpreter { game, effects, position }` from `src/interpreter.rs`
lines 21-26.  The Rust `game` field is a mutable borrow of the shared
state; here the state is carried by value and returned updated. -/
structure Interp where
  game : Game
  effects : List EffectTree
  position : Nat

/-- Failure modes of a run.  In the Rust source each of these is a panic:
`unwrap` of a failing `EffectValue::get` (decode) or `EffectValue::new`
(encode) in `Interpreter::apply`, the `todo!()` for more than one applicable
replacement candidate in `handle_replacement`, and the `unwrap` of popping
from an empty hand in `RandomDiscardReplacement::apply`. -/
inductive RunErr : Type where
  | decodeError | encodeError | unresolvedChoice | panicked
deriving DecidableEq

/-- Result of running a computation against an interpreter: the final
interpreter, the outcome (or the panic that aborted the run), the total
number of fresh effect-function invocations made anywhere in the call tree
(the model of the instrumented call counters in `src/lib.rs`), the number
of `apply` calls made at this interpreter's own nesting level, and how many
of those took the fresh-execution branch. -/
structure RunRes (α : Type) where
  int : Interp
  res : Except RunErr α
  fresh : Nat
  calls : Nat
  freshTop : Nat

/-- `Interpreter::apply` from `src/interpreter.rs` lines 29-68.
If a node is recorded at the cursor, advance the cursor and decode the
node's result (without invoking `f`); decode failure is the unwrapped
`DecodeError` panic.  Otherwise advance the cursor, run `f` on a child
interpreter sharing the same game with empty effects and cursor 0, encode
the outcome (failure is the unwrapped `EncodeError` panic, in which case the
`effects.push` is never executed), and append the single new node
`{ result, children := child.effects }`. -/
def Interp.apply (t : Ty) (int : Interp) (f : Interp → RunRes (Ty.den t)) :
    RunRes (Ty.den t) :=
  match int.effects.get? int.position with
  | some node =>
    match dec t node.result with
    | some x => ⟨⟨int.game, int.effects, int.position + 1⟩, .ok x, 0, 1, 0⟩
    | none =>
        ⟨⟨int.game, int.effects, int.position + 1⟩, .error .decodeError, 0, 1, 0⟩
  | none =>
    let c := f ⟨int.game, [], 0⟩
    match c.res with
    | .ok o =>
      match enc t o with
      | some j =>
          ⟨⟨c.int.game, int.effects ++ [.mk j c.int.effects], int.position + 1⟩,
            .ok o, c.fresh + 1, 1, 1⟩
      | none =>
          ⟨⟨c.int.game, int.effects, int.position + 1⟩,
            .error .encodeError, c.fresh + 1, 1, 1⟩
    | .error e =>
        ⟨⟨c.int.game, int.effects, int.position + 1⟩, .error e, c.fresh + 1, 1, 1⟩

/-- A computation handed to the interpreter: the shape of the Rust closures
`FnOnce(&mut Interpreter) -> T` that the program runs through `apply`.
`base` is straight-line domain code (reads and mutates the game, may panic),
`getS` branches on the current shared state, `seq s sub k` performs
`let x = int.apply(sub); k x` — one nested `apply` call followed by the
rest of the computation — and `ret` finishes with a value. -/
inductive Comp : Ty → Type where
  | ret {t : Ty} (v : Ty.den t) : Comp t
  | base {t : Ty} (f : Game → Game × Except RunErr (Ty.den t)) : Comp t
  | getS {t : Ty} (h : Game → Comp t) : Comp t
  | seq {t : Ty} (s : Ty) (sub : Comp s) (k : Ty.den s → Comp t) : Comp t

/-- Run a computation against an interpreter.  Straight-line code acts on
the shared game directly (it leaves no trace in `effects` and is not
memoized); every `seq` step goes through `Interp.apply`, handing the nested
computation a fresh child interpreter over the same game. -/
def runC : {t : Ty} → Comp t → Interp → RunRes (Ty.den t)
  | _, .ret v, int => ⟨int, .ok v, 0, 0, 0⟩
  | _, .base f, int =>
      ⟨⟨(f int.game).1, int.effects, int.position⟩, (f int.game).2, 0, 0, 0⟩
  | _, .getS h, int => runC (h int.game) int
  | _, .seq s sub k, int =>
    let a := Interp.apply s int (fun ch => runC sub ch)
    match a.res with
    | .ok x =>
      let b := runC (k x) a.int
      ⟨b.int, b.res, a.fresh + b.fresh, 1 + b.calls, a.freshTop + b.freshTop⟩
    | .error e => ⟨a.int, .error e, a.fresh, a.calls, a.freshTop⟩

/-- The single concrete replacement-handler variant the program registers
(`struct RandomDiscardReplacement`, `src/lib.rs` lines 98-145).  A
serialized registry entry decodes to a handler exactly when it is the
typetag form `{"RandomDiscardReplacement": null}` of that variant; any
other value fails to decode. -/
inductive DrawReplacement : Type where
  | randomDiscard
deriving DecidableEq

/-- `serde_json::from_value::<Box<dyn DrawReplacement>>` on one serialized
registry entry (`src/lib.rs` line 30). -/
def decodeHandler : Json → Option DrawReplacement
  | .obj [("RandomDiscardReplacement", .null)] => some .randomDiscard
  | _ => none

/-- The serialized form `serde_json::to_value(&RandomDiscardReplacement)`
pushed into the registry by `replace_draw_with_discard`. -/
def serializedDiscardHandler : Json := .obj [("RandomDiscardReplacement", .null)]

/-- `ReplacementEffect::check` (`src/lib.rs` lines 139-141): the discard
replacement applies whenever the hand is non-empty. -/
def DrawReplacement.check : DrawReplacement → Game → Bool
  | .randomDiscard, g => !g.hand.isEmpty

/-- `RandomDiscardReplacement::apply` (`src/lib.rs` lines 104-137): pop the
last card of the hand (`unwrap` panics if the hand is empty, modelled as
`none`), push it onto the graveyard, and return `Ok("Discarded <card>")`. -/
def DrawReplacement.applyEff : DrawReplacement → Game → Option (Game × Except String String)
  | .randomDiscard, g =>
    match g.hand.getLast? with
    | none => none
    | some discard =>
        some ({ g with hand := g.hand.dropLast,
                       graveyard := g.graveyard ++ [discard] },
              .ok ("Discarded " ++ discard))

/-- The registry entries recorded under a key, decoded tolerantly: entries
that fail to decode are silently dropped by the `filter_map(.. .ok())`
(`src/lib.rs` lines 27-34). -/
def decodedCandidates (g : Game) (key : String) : List DrawReplacement :=
  ((g.replacement_effects.lookup key).getD []).filterMap decodeHandler

/-- The decoded candidates whose `check` accepts the current state
(`src/lib.rs` line 31). -/
def applicableAlts (g : Game) (key : String) : List DrawReplacement :=
  (decodedCandidates g key).filter (fun eff => eff.check g)

/-- Outcome of `handle_replacement`: exactly one applicable candidate ran
and produced a new game and a result (`Some(..)` in Rust), no candidate was
applicable (`None` in Rust, the default behavior should proceed), more than
one was applicable (the `todo!()` fatal unresolved-choice panic), or the
single chosen candidate itself panicked. -/
inductive RepOutcome : Type where
  | replaced (g : Game) (r : Except String String)
  | noReplacement
  | unresolvedChoice
  | panicked

/-- `handle_replacement` from `src/lib.rs` lines 21-43: look up the
candidates for the key, decode tolerantly, filter by `check`; if exactly
one is applicable run it, if more than one hit the `todo!()`
(unresolved choice), otherwise report that no replacement applies. -/
def handle_replacement (g : Game) (key : String) : RepOutcome :=
  match applicableAlts g key with
  | [eff] =>
    match eff.applyEff g with
    | some (g', r) => .replaced g' r
    | none => .panicked
  | [] => .noReplacement
  | _ :: _ :: _ => .unresolvedChoice

/-- `gain_life` from `src/lib.rs` lines 53-63: add `amount` to the life
total and return the message.  (The `GAIN_LIFE_CALL_COUNT` instrumentation
increments exactly when this body runs, i.e. on every fresh invocation;
that is the `fresh` counter of `RunRes`.) -/
def gain_life (amount : Nat) : Game → Game × Except RunErr String :=
  fun g => ({ g with life := g.life + amount },
            .ok ("Added " ++ toString amount ++ " life"))

/-- `draw_card` from `src/lib.rs` lines 68-86: first consult the
replacement registry under `"DRAW"`; with exactly one applicable candidate
its outcome replaces the default entirely; with none, pop the last library
card into the hand (or return the domain-level `Err` on an empty library —
an ordinary value, not an interpreter failure). -/
def draw_card (g : Game) : Game × Except RunErr (Except String String) :=
  match handle_replacement g "DRAW" with
  | .replaced g' r => (g', .ok r)
  | .unresolvedChoice => (g, .error .unresolvedChoice)
  | .panicked => (g, .error .panicked)
  | .noReplacement =>
    match g.library.getLast? with
    | some card =>
        ({ g with library := g.library.dropLast, hand := g.hand ++ [card] },
         .ok (.ok ("Drew " ++ card)))
    | none => (g, .ok (.error "Drew from empty library! 💀"))

/-- `entry(key).or_default().push(v)` on the replacement registry. -/
def pushRE : List (String × List Json) → String → Json → List (String × List Json)
  | [], key, v => [(key, [v])]
  | (k', vs) :: rest, key, v =>
    if k' == key then (k', vs ++ [v]) :: rest else (k', vs) :: pushRE rest key v

/-- `replace_draw_with_discard` from `src/lib.rs` lines 147-158: append the
serialized discard handler to the `"DRAW"` entry of the registry. -/
def replace_draw_with_discard (g : Game) : Game × Except RunErr Unit :=
  ({ g with replacement_effects :=
      pushRE g.replacement_effects "DRAW" serializedDiscardHandler },
   .ok ())

/-- The loop body of `draw_cards` from `src/lib.rs` lines 161-172: draw one
card through `apply` at a time, accumulating the messages; a domain-level
`Err` short-circuits (the `?`) and becomes the loop's own result value. -/
def drawLoop : Nat → List String → Comp .resListStr
  | 0, acc => .ret (.ok acc)
  | n + 1, acc =>
    .seq .resStr (.base draw_card) (fun r =>
      match r with
      | .ok msg => drawLoop n (acc ++ [msg])
      | .error e => .ret (.error e))

/-- `draw_cards(count)` as a computation. -/
def draw_cards (count : Nat) : Comp .resListStr := drawLoop count []

/-- The concrete starting state of the testable scenario in the spec:
library `[A, B]` (a `Vec`, so `pop` draws `B` first), empty hand and
graveyard, 20 life (the test's value), no registered replacements. -/
def scenarioStart : Game := ⟨20, ["A", "B"], [], [], []⟩

/-- One draw followed by `gain_life(5)`, each routed through `apply`, as
sibling calls of one interpreter (the shape of the test's `turn_three`). -/
def drawThenGain : Comp .unit :=
  .seq .resStr (.base draw_card) (fun _ =>
    .seq .str (.base (gain_life 5)) (fun _ => .ret ()))

/-- A one-call tree gaining 5 life: `int.apply(gain_life(5))`. -/
def gainOnly : Comp .unit :=
  .seq .str (.base (gain_life 5)) (fun _ => .ret ())

/-- An initial game with 20 life and nothing else. -/
def exG0 : Game := ⟨20, [], [], [], []⟩

/-! Basic lemmas about the embedding. -/

theorem get?_of_length_le {α : Type} :
    ∀ (l : List α) (n : Nat), l.length ≤ n → l.get? n = none := by
  intro l
  induction l with
  | nil => intro n _; cases n <;> rfl
  | cons a as ih =>
    intro n hn
    cases n with
    | zero => simp at hn
    | succ m => exact ih m (Nat.le_of_succ_le_succ hn)

theorem get?_append_length {α : Type} :
    ∀ (l m : List α), (l ++ m).get? l.length = m.head? := by
  intro l m
  induction l with
  | nil => cases m <;> rfl
  | cons a as ih => simpa using ih

theorem get?_lt_length {α : Type} :
    ∀ (l : List α) (n : Nat) (x : α), l.get? n = some x → n < l.length := by
  intro l
  induction l with
  | nil => intro n x h; cases n <;> simp [List.get?] at h
  | cons a as ih =>
    intro n x h
    cases n with
    | zero => simp
    | succ m => exact Nat.succ_lt_succ (ih m x h)

theorem append_eq_self_nil {α : Type} (l m : List α) (h : l = l ++ m) : m = [] := by
  have := congrArg List.length h
  simp at this
  exact this

theorem append_cancel_left {α : Type} :
    ∀ (l m k : List α), l ++ m = l ++ k → m = k := by
  intro l
  induction l with
  | nil => intro m k h; simpa using h
  | cons a as ih => intro m k h; exact ih m k (by simpa using h)

/-- Decoding the encoding of a list of strings recovers the list. -/
theorem decStrList_map_str : ∀ (xs : List String),
    decStrList (xs.map Json.str) = some xs := by
  intro xs
  induction xs with
  | nil => rfl
  | cons s rest ih => simp [decStrList, ih]

/-- Round trip: a successfully encoded value decodes back to itself at the
same type. -/
theorem dec_enc (t : Ty) (v : Ty.den t) (j : Json) (h : enc t v = some j) :
    dec t j = some v := by
  cases t with
  | nat => cases h; rfl
  | str => cases h; rfl
  | unit => cases h; rfl
  | resStr => cases v <;> (cases h; rfl)
  | resListStr =>
    cases v with
    | ok xs =>
      cases h
      simp [dec, decStrList_map_str]
    | error e => cases h; rfl
  | mapNSK =>
    cases v with
    | nil => cases h; rfl
    | cons p rest => simp [enc] at h

/-! Case lemmas for `Interp.apply` and `runC`. -/

theorem apply_replay_ok {t : Ty} (int : Interp) (node : EffectTree)
    (x : Ty.den t) (f : Interp → RunRes (Ty.den t))
    (h1 : int.effects.get? int.position = some node)
    (h2 : dec t node.result = some x) :
    Interp.apply t int f =
      ⟨⟨int.game, int.effects, int.position + 1⟩, .ok x, 0, 1, 0⟩ := by
  simp only [Interp.apply, h1, h2]

theorem apply_replay_decfail {t : Ty} (int : Interp) (node : EffectTree)
    (f : Interp → RunRes (Ty.den t))
    (h1 : int.effects.get? int.position = some node)
    (h2 : dec t node.result = none) :
    Interp.apply t int f =
      ⟨⟨int.game, int.effects, int.position + 1⟩, .error .decodeError, 0, 1, 0⟩ := by
  simp only [Interp.apply, h1, h2]

theorem apply_fresh_ok {t : Ty} (int : Interp)
    (f : Interp → RunRes (Ty.den t)) (o : Ty.den t) (j : Json)
    (h1 : int.effects.get? int.position = none)
    (h2 : (f ⟨int.game, [], 0⟩).res = .ok o)
    (h3 : enc t o = some j) :
    Interp.apply t int f =
      ⟨⟨(f ⟨int.game, [], 0⟩).int.game,
         int.effects ++ [.mk j (f ⟨int.game, [], 0⟩).int.effects],
         int.position + 1⟩,
        .ok o, (f ⟨int.game, [], 0⟩).fresh + 1, 1, 1⟩ := by
  simp only [Interp.apply, h1, h2, h3]

theorem apply_fresh_encfail {t : Ty} (int : Interp)
    (f : Interp → RunRes (Ty.den t)) (o : Ty.den t)
    (h1 : int.effects.get? int.position = none)
    (h2 : (f ⟨int.game, [], 0⟩).res = .ok o)
    (h3 : enc t o = none) :
    Interp.apply t int f =
      ⟨⟨(f ⟨int.game, [], 0⟩).int.game, int.effects, int.position + 1⟩,
        .error .encodeError, (f ⟨int.game, [], 0⟩).fresh + 1, 1, 1⟩ := by
  simp only [Interp.apply, h1, h2, h3]

theorem apply_fresh_err {t : Ty} (int : Interp)
    (f : Interp → RunRes (Ty.den t)) (e : RunErr)
    (h1 : int.effects.get? int.position = none)
    (h2 : (f ⟨int.game, [], 0⟩).res = .error e) :
    Interp.apply t int f =
      ⟨⟨(f ⟨int.game, [], 0⟩).int.game, int.effects, int.position + 1⟩,
        .error e, (f ⟨int.game, [], 0⟩).fresh + 1, 1, 1⟩ := by
  simp only [Interp.apply, h1, h2]

theorem apply_position (t : Ty) (int : Interp)
    (f : Interp → RunRes (Ty.den t)) :
    (Interp.apply t int f).int.position = int.position + 1 := by
  cases hg : int.effects.get? int.position with
  | some node =>
    cases hd : dec t node.result with
    | some x => rw [apply_replay_ok int node x f hg hd]
    | none => rw [apply_replay_decfail int node f hg hd]
  | none =>
    cases hr : (f ⟨int.game, [], 0⟩).res with
    | ok o =>
      cases he : enc t o with
      | some j => rw [apply_fresh_ok int f o j hg hr he]
      | none => rw [apply_fresh_encfail int f o hg hr he]
    | error e => rw [apply_fresh_err int f e hg hr]

theorem runC_ret {t : Ty} (v : Ty.den t) (int : Interp) :
    runC (.ret v) int = ⟨int, .ok v, 0, 0, 0⟩ := rfl

theorem runC_base {t : Ty} (f : Game → Game × Except RunErr (Ty.den t))
    (int : Interp) :
    runC (.base f) int =
      ⟨⟨(f int.game).1, int.effects, int.position⟩, (f int.game).2, 0, 0, 0⟩ := rfl

theorem runC_getS {t : Ty} (h : Game → Comp t) (int : Interp) :
    runC (.getS h) int = runC (h int.game) int := rfl

theorem runC_seq {t s : Ty} (sub : Comp s) (k : Ty.den s → Comp t)
    (int : Interp) :
    runC (.seq s sub k) int =
      (let a := Interp.apply s int (fun ch => runC sub ch)
       match a.res with
       | .ok x =>
         let b := runC (k x) a.int
         ⟨b.int, b.res, a.fresh + b.fresh, 1 + b.calls, a.freshTop + b.freshTop⟩
       | .error e => ⟨a.int, .error e, a.fresh, a.calls, a.freshTop⟩) := by
  simp only [runC]

theorem runC_seq_replay_ok {t s : Ty} (sub : Comp s) (k : Ty.den s → Comp t)
    (int : Interp) (node : EffectTree) (x : Ty.den s)
    (h1 : int.effects.get? int.position = some node)
    (h2 : dec s node.result = some x) :
    runC (.seq s sub k) int =
      (let b := runC (k x) ⟨int.game, int.effects, int.position + 1⟩
       ⟨b.int, b.res, b.fresh, 1 + b.calls, b.freshTop⟩) := by
  rw [runC_seq]
  rw [apply_replay_ok int node x _ h1 h2]
  simp

theorem runC_seq_replay_decfail {t s : Ty} (sub : Comp s)
    (k : Ty.den s → Comp t) (int : Interp) (node : EffectTree)
    (h1 : int.effects.get? int.position = some node)
    (h2 : dec s node.result = none) :
    runC (.seq s sub k) int =
      ⟨⟨int.game, int.effects, int.position + 1⟩, .error .decodeError, 0, 1, 0⟩ := by
  rw [runC_seq]
  rw [apply_replay_decfail int node _ h1 h2]

theorem runC_seq_fresh_ok {t s : Ty} (sub : Comp s) (k : Ty.den s → Comp t)
    (int : Interp) (o : Ty.den s) (j : Json)
    (h1 : int.effects.get? int.position = none)
    (h2 : (runC sub ⟨int.game, [], 0⟩).res = .ok o)
    (h3 : enc s o = some j) :
    runC (.seq s sub k) int =
      (let c := runC sub ⟨int.game, [], 0⟩
       let b := runC (k o)
         ⟨c.int.game, int.effects ++ [.mk j c.int.effects], int.position + 1⟩
       ⟨b.int, b.res, c.fresh + 1 + b.fresh, 1 + b.calls, 1 + b.freshTop⟩) := by
  rw [runC_seq]
  rw [apply_fresh_ok int _ o j h1 h2 h3]

theorem runC_seq_fresh_encfail {t s : Ty} (sub : Comp s)
    (k : Ty.den s → Comp t) (int : Interp) (o : Ty.den s)
    (h1 : int.effects.get? int.position = none)
    (h2 : (runC sub ⟨int.game, [], 0⟩).res = .ok o)
    (h3 : enc s o = none) :
    runC (.seq s sub k) int =
      ⟨⟨(runC sub ⟨int.game, [], 0⟩).int.game, int.effects, int.position + 1⟩,
        .error .encodeError, (runC sub ⟨int.game, [], 0⟩).fresh + 1, 1, 1⟩ := by
  rw [runC_seq]
  rw [apply_fresh_encfail int _ o h1 h2 h3]

theorem runC_seq_fresh_err {t s : Ty} (sub : Comp s) (k : Ty.den s → Comp t)
    (int : Interp) (e : RunErr)
    (h1 : int.effects.get? int.position = none)
    (h2 : (runC sub ⟨int.game, [], 0⟩).res = .error e) :
    runC (.seq s sub k) int =
      ⟨⟨(runC sub ⟨int.game, [], 0⟩).int.game, int.effects, int.position + 1⟩,
        .error e, (runC sub ⟨int.game, [], 0⟩).fresh + 1, 1, 1⟩ := by
  rw [runC_seq]
  rw [apply_fresh_err int _ e h1 h2]

theorem length_le_of_get?_none {α : Type} :
    ∀ (l : List α) (n : Nat), l.get? n = none → l.length ≤ n := by
  intro l
  induction l with
  | nil => intro n _; simp
  | cons a as ih =>
    intro n h
    cases n with
    | zero => simp [List.get?] at h
    | succ m => exact Nat.succ_le_succ (ih m h)

/-- Cursor behavior of a whole run of one interpreter: starting with the
cursor inside the recorded list (as every construction in the program does,
with `position = 0`), the final cursor equals the initial cursor plus the
number of `apply` calls made at this level, the recorded list only grows by
appending (at most one node per fresh call at this level), and the cursor
never exceeds the length at construction plus the number of fresh calls at
this level. -/
theorem cursor_lemma : ∀ {t : Ty} (c : Comp t) (int : Interp),
    int.position ≤ int.effects.length →
    ((runC c int).int.position = int.position + (runC c int).calls) ∧
    (∃ new, (runC c int).int.effects = int.effects ++ new ∧
            new.length ≤ (runC c int).freshTop) ∧
    ((runC c int).int.position ≤ int.effects.length + (runC c int).freshTop) := by
  intro t c
  induction c with
  | ret v =>
    intro int h
    refine ⟨by simp [runC_ret], ⟨[], by simp [runC_ret]⟩, ?_⟩
    simpa [runC_ret] using h
  | base f =>
    intro int h
    refine ⟨by simp [runC_base], ⟨[], by simp [runC_base]⟩, ?_⟩
    simpa [runC_base] using h
  | getS hS ih =>
    intro int h
    rw [runC_getS]
    exact ih int.game int h
  | seq s sub k ihsub ihk =>
    intro int h
    cases hg : int.effects.get? int.position with
    | some node =>
      have hlt : int.position < int.effects.length := get?_lt_length _ _ _ hg
      cases hd : dec s node.result with
      | some x =>
        rw [runC_seq_replay_ok sub k int node x hg hd]
        dsimp only
        obtain ⟨hpos, ⟨new, heff, hlen⟩, hbound⟩ :=
          ihk x ⟨int.game, int.effects, int.position + 1⟩ (by simpa using hlt)
        dsimp only at hpos heff hlen hbound
        exact ⟨by omega, ⟨new, heff, hlen⟩, by omega⟩
      | none =>
        rw [runC_seq_replay_decfail sub k int node hg hd]
        refine ⟨by simp, ⟨[], by simp⟩, ?_⟩
        simpa using hlt
    | none =>
      have hge : int.effects.length ≤ int.position :=
        length_le_of_get?_none _ _ hg
      cases hr : (runC sub ⟨int.game, [], 0⟩).res with
      | ok o =>
        cases he : enc s o with
        | some j =>
          rw [runC_seq_fresh_ok sub k int o j hg hr he]
          dsimp only
          obtain ⟨hpos, ⟨new2, heff, hlen⟩, hbound⟩ :=
            ihk o ⟨(runC sub ⟨int.game, [], 0⟩).int.game,
                   int.effects ++ [.mk j (runC sub ⟨int.game, [], 0⟩).int.effects],
                   int.position + 1⟩ (by simp; omega)
          dsimp only at hpos heff hlen hbound
          refine ⟨by omega,
            ⟨EffectTree.mk j (runC sub ⟨int.game, [], 0⟩).int.effects :: new2,
              ?_, ?_⟩, ?_⟩
          · rw [heff]; simp
          · simp only [List.length_cons]; omega
          · simp only [List.length_append, List.length_cons, List.length_nil] at hbound
            omega
        | none =>
          rw [runC_seq_fresh_encfail sub k int o hg hr he]
          refine ⟨by simp, ⟨[], by simp⟩, by simp; omega⟩
      | error e =>
        rw [runC_seq_fresh_err sub k int e hg hr]
        refine ⟨by simp, ⟨[], by simp⟩, by simp; omega⟩

/-- Shape of a successful run whose cursor starts at the end of the recorded
list (in particular any run seeded with an empty record): it only appends
`new` nodes and finishes with the cursor right past them. -/
theorem freshRun_shape : ∀ {t : Ty} (c : Comp t) (g : Game)
    (es : List EffectTree) (v : Ty.den t),
    (runC c ⟨g, es, es.length⟩).res = .ok v →
    ∃ new, (runC c ⟨g, es, es.length⟩).int.effects = es ++ new ∧
           (runC c ⟨g, es, es.length⟩).int.position = es.length + new.length := by
  intro t c
  induction c with
  | ret v' =>
    intro g es v hres
    exact ⟨[], by simp [runC_ret]⟩
  | base f =>
    intro g es v hres
    exact ⟨[], by simp [runC_base]⟩
  | getS hS ih =>
    intro g es v hres
    rw [runC_getS] at hres ⊢
    exact ih g g es v hres
  | seq s sub k ihsub ihk =>
    intro g es v hres
    have hg : es.get? es.length = none := get?_of_length_le es es.length (Nat.le_refl _)
    cases hr : (runC sub ⟨g, [], 0⟩).res with
    | error e =>
      rw [runC_seq_fresh_err sub k ⟨g, es, es.length⟩ e hg hr] at hres
      simp at hres
    | ok o =>
      cases he : enc s o with
      | none =>
        rw [runC_seq_fresh_encfail sub k ⟨g, es, es.length⟩ o hg hr he] at hres
        simp at hres
      | some j =>
        rw [runC_seq_fresh_ok sub k ⟨g, es, es.length⟩ o j hg hr he] at hres ⊢
        dsimp only at hres ⊢
        have hlen1 : es.length + 1 =
            (es ++ [EffectTree.mk j (runC sub ⟨g, [], 0⟩).int.effects]).length := by
          simp
        rw [hlen1] at hres ⊢
        obtain ⟨new2, heff2, hpos2⟩ :=
          ihk o (runC sub ⟨g, [], 0⟩).int.game
            (es ++ [EffectTree.mk j (runC sub ⟨g, [], 0⟩).int.effects]) v hres
        refine ⟨EffectTree.mk j (runC sub ⟨g, [], 0⟩).int.effects :: new2, ?_, ?_⟩
        · rw [heff2]; simp
        · rw [hpos2]; simp; omega

/-- Call trees every top-level step of which is routed through `apply`
(the glue between the top-level `apply` calls is pure, as in the test's
`whole_game`, `turn_one`, `turn_two`, `turn_three`).  Straight-line state
access outside `apply` is not memoized, so only such trees replay without
touching the state. -/
inductive Replayable : {t : Ty} → Comp t → Prop where
  | ret {t : Ty} (v : Ty.den t) : Replayable (Comp.ret v)
  | seq {t s : Ty} (sub : Comp s) (k : Ty.den s → Comp t)
      (hk : ∀ x, Replayable (k x)) : Replayable (Comp.seq s sub k)

/-- Replay lemma: if a run of a `Replayable` tree from cursor-at-end
succeeded and appended the nodes `new`, then running the same tree against
any game, positioned at a recorded copy of `new` (with arbitrary material
around it), replays entirely from the record: the interpreter's game and
effects are left exactly as given, the cursor moves past `new`, the same
value is returned, and no fresh invocation happens anywhere. -/
theorem replay_run : ∀ {t : Ty} (c : Comp t), Replayable c →
    ∀ (g : Game) (es new : List EffectTree) (v : Ty.den t),
    (runC c ⟨g, es, es.length⟩).res = .ok v →
    (runC c ⟨g, es, es.length⟩).int.effects = es ++ new →
    ∀ (hg : Game) (ds rest : List EffectTree),
    runC c ⟨hg, ds ++ (new ++ rest), ds.length⟩ =
      ⟨⟨hg, ds ++ (new ++ rest), ds.length + new.length⟩, .ok v, 0, new.length, 0⟩ := by
  intro t c hrep
  induction hrep with
  | ret v' =>
    intro g es new v hres heff hg ds rest
    rw [runC_ret] at hres heff
    dsimp only at hres heff
    have hnew : new = [] := append_eq_self_nil es new heff
    subst hnew
    cases hres
    simp [runC_ret]
  | @seq s sub k hk ihk =>
    intro g es new v hres heff hg ds rest
    have hgnone : es.get? es.length = none :=
      get?_of_length_le es es.length (Nat.le_refl _)
    cases hr : (runC sub ⟨g, [], 0⟩).res with
    | error e =>
      rw [runC_seq_fresh_err sub k ⟨g, es, es.length⟩ e hgnone hr] at hres
      simp at hres
    | ok o =>
      cases he : enc s o with
      | none =>
        rw [runC_seq_fresh_encfail sub k ⟨g, es, es.length⟩ o hgnone hr he] at hres
        simp at hres
      | some j =>
        rw [runC_seq_fresh_ok sub k ⟨g, es, es.length⟩ o j hgnone hr he] at hres heff
        dsimp only at hres heff
        have hlen1 : es.length + 1 =
            (es ++ [EffectTree.mk j (runC sub ⟨g, [], 0⟩).int.effects]).length := by
          simp
        rw [hlen1] at hres heff
        obtain ⟨new2, heff2, hpos2⟩ :=
          freshRun_shape (k o) (runC sub ⟨g, [], 0⟩).int.game
            (es ++ [EffectTree.mk j (runC sub ⟨g, [], 0⟩).int.effects]) v hres
        have hnew : new = EffectTree.mk j (runC sub ⟨g, [], 0⟩).int.effects :: new2 := by
          apply append_cancel_left es
          rw [← heff, heff2]
          simp
        subst hnew
        have hget : (ds ++ ((EffectTree.mk j (runC sub ⟨g, [], 0⟩).int.effects :: new2)
              ++ rest)).get? ds.length
            = some (EffectTree.mk j (runC sub ⟨g, [], 0⟩).int.effects) := by
          rw [get?_append_length]
          rfl
        have hdec : dec s (EffectTree.mk j (runC sub ⟨g, [], 0⟩).int.effects).result
            = some o := by
          simpa [EffectTree.result] using dec_enc s o j he
        rw [runC_seq_replay_ok sub k
          ⟨hg, ds ++ ((EffectTree.mk j (runC sub ⟨g, [], 0⟩).int.effects :: new2) ++ rest),
            ds.length⟩
          (EffectTree.mk j (runC sub ⟨g, [], 0⟩).int.effects) o hget hdec]
        dsimp only
        have hrepl := ihk o (runC sub ⟨g, [], 0⟩).int.game
          (es ++ [EffectTree.mk j (runC sub ⟨g, [], 0⟩).int.effects]) new2 v hres heff2
          hg (ds ++ [EffectTree.mk j (runC sub ⟨g, [], 0⟩).int.effects]) rest
        simp only [List.append_assoc, List.cons_append, List.nil_append,
          List.singleton_append, List.length_append, List.length_cons,
          List.length_nil] at hrepl ⊢
        rw [hrepl]
        simp [Nat.add_assoc, Nat.add_comm, Nat.add_left_comm]

/-! Claim theorems. -/

/-- C2: Fresh-execution branch of `apply`: for every interpreter whose
cursor is not below `effects.len()`, `apply f` advances the cursor by one,
invokes `f` once on a child interpreter over the same game with empty
effects and cursor `0`, encodes `f`'s outcome, appends to its own effects
exactly one node whose result is the encoded outcome and whose children
are the child's effects, and returns the outcome unchanged.  Stated along
the path the claim describes: `f` produces an outcome (does not panic) and
the outcome serializes. -/
theorem claim2_fresh_branch (t : Ty) (int : Interp)
    (f : Interp → RunRes (Ty.den t)) (o : Ty.den t) (j : Json)
    (hpos : int.effects.length ≤ int.position)
    (hok : (f ⟨int.game, [], 0⟩).res = .ok o)
    (henc : enc t o = some j) :
    Interp.apply t int f =
      ⟨⟨(f ⟨int.game, [], 0⟩).int.game,
         int.effects ++ [.mk j (f ⟨int.game, [], 0⟩).int.effects],
         int.position + 1⟩,
        .ok o, (f ⟨int.game, [], 0⟩).fresh + 1, 1, 1⟩ :=
  apply_fresh_ok int f o j (get?_of_length_le _ _ hpos) hok henc

/-- Witness for C2: a fresh `apply` of `gain_life(5)` on an empty record
appends exactly the one encoded node and returns the message. -/
theorem claim2_fresh_branch_witness :
    Interp.apply .str ⟨exG0, [], 0⟩ (fun ch => runC (.base (gain_life 5)) ch) =
      ⟨⟨⟨25, [], [], [], []⟩, [.mk (.str "Added 5 life") []], 1⟩,
        .ok "Added 5 life", 1, 1, 1⟩ :=
  claim2_fresh_branch .str ⟨exG0, [], 0⟩
    (fun ch => runC (.base (gain_life 5)) ch)
    "Added 5 life" (.str "Added 5 life") (Nat.le_refl 0) rfl rfl

/-- C3: Replay branch of `apply`: for every interpreter whose cursor is
strictly inside the recorded list (equivalently: a node is recorded at the
cursor), `apply f` does not invoke `f` (the result is the same for any two
`f`), decodes the recorded node's result at the requested type, advances
the cursor by exactly one, returns the decoded value and retains the
recorded nodes (children included) unchanged. -/
theorem claim3_replay_branch (t : Ty) (int : Interp) (node : EffectTree)
    (x : Ty.den t)
    (hnode : int.effects.get? int.position = some node)
    (hdec : dec t node.result = some x) :
    ∀ (f g : Interp → RunRes (Ty.den t)),
      Interp.apply t int f =
        ⟨⟨int.game, int.effects, int.position + 1⟩, .ok x, 0, 1, 0⟩ ∧
      Interp.apply t int f = Interp.apply t int g := by
  intro f g
  refine ⟨apply_replay_ok int node x f hnode hdec, ?_⟩
  rw [apply_replay_ok int node x f hnode hdec,
      apply_replay_ok int node x g hnode hdec]

/-- Witness for C3: replaying a recorded `7` returns `7` and ignores which
function was passed. -/
theorem claim3_replay_branch_witness :
    Interp.apply .nat ⟨exG0, [.mk (.num 7) []], 0⟩
        (fun ch => ⟨ch, .ok (0 : Nat), 0, 0, 0⟩) =
      ⟨⟨exG0, [.mk (.num 7) []], 1⟩, .ok (7 : Nat), 0, 1, 0⟩ ∧
    Interp.apply .nat ⟨exG0, [.mk (.num 7) []], 0⟩
        (fun ch => ⟨ch, .ok (0 : Nat), 0, 0, 0⟩) =
      Interp.apply .nat ⟨exG0, [.mk (.num 7) []], 0⟩
        (fun ch => ⟨ch, .ok (1 : Nat), 0, 0, 0⟩) :=
  claim3_replay_branch .nat ⟨exG0, [.mk (.num 7) []], 0⟩ (.mk (.num 7) []) (7 : Nat)
    rfl rfl (fun ch => ⟨ch, .ok (0 : Nat), 0, 0, 0⟩)
    (fun ch => ⟨ch, .ok (1 : Nat), 0, 0, 0⟩)

/-- C9: EncodeError atomicity: when the fresh branch's outcome cannot be
serialized, that `apply` invocation fails fatally with `EncodeError` and no
partial node is recorded — its effects list is exactly the one from before
the invocation. -/
theorem claim9_encode_atomic (t : Ty) (int : Interp)
    (f : Interp → RunRes (Ty.den t)) (o : Ty.den t)
    (hpos : int.effects.length ≤ int.position)
    (hok : (f ⟨int.game, [], 0⟩).res = .ok o)
    (henc : enc t o = none) :
    Interp.apply t int f =
      ⟨⟨(f ⟨int.game, [], 0⟩).int.game, int.effects, int.position + 1⟩,
        .error .encodeError, (f ⟨int.game, [], 0⟩).fresh + 1, 1, 1⟩ ∧
    (Interp.apply t int f).int.effects = int.effects := by
  have h := apply_fresh_encfail int f o (get?_of_length_le _ _ hpos) hok henc
  exact ⟨h, by rw [h]⟩

/-- Witness for C9: a non-empty map with non-string keys fails to encode;
the apply reports `EncodeError` and the effects list stays empty. -/
theorem claim9_encode_atomic_witness :
    Interp.apply .mapNSK ⟨exG0, [], 0⟩
        (fun ch => ⟨ch, .ok [(["k"], "v")], 0, 0, 0⟩) =
      ⟨⟨exG0, [], 1⟩, .error .encodeError, 1, 1, 1⟩ ∧
    (Interp.apply .mapNSK ⟨exG0, [], 0⟩
        (fun ch => ⟨ch, .ok [(["k"], "v")], 0, 0, 0⟩)).int.effects = [] :=
  claim9_encode_atomic .mapNSK ⟨exG0, [], 0⟩
    (fun ch => ⟨ch, .ok [(["k"], "v")], 0, 0, 0⟩) [(["k"], "v")]
    (Nat.le_refl 0) rfl rfl

/-- C10: Frame effect of the replay branch: when a node is recorded at the
cursor, `apply` leaves the shared game state completely unchanged (none of
the original execution's mutations are re-applied), keeps the effects list
as it was, and makes no fresh invocation. -/
theorem claim10_replay_frame (t : Ty) (int : Interp)
    (f : Interp → RunRes (Ty.den t)) (node : EffectTree)
    (hnode : int.effects.get? int.position = some node) :
    (Interp.apply t int f).int.game = int.game ∧
    (Interp.apply t int f).int.effects = int.effects ∧
    (Interp.apply t int f).fresh = 0 := by
  cases hdec : dec t node.result with
  | some x => rw [apply_replay_ok int node x f hnode hdec]; exact ⟨rfl, rfl, rfl⟩
  | none => rw [apply_replay_decfail int node f hnode hdec]; exact ⟨rfl, rfl, rfl⟩

/-- Witness for C10: replaying over a recorded node leaves the game
untouched even though the passed function would have changed it. -/
theorem claim10_replay_frame_witness :
    (Interp.apply .str ⟨exG0, [.mk (.str "hello") []], 0⟩
        (fun ch => runC (.base (gain_life 5)) ch)).int.game = exG0 ∧
    (Interp.apply .str ⟨exG0, [.mk (.str "hello") []], 0⟩
        (fun ch => runC (.base (gain_life 5)) ch)).int.effects =
      [.mk (.str "hello") []] ∧
    (Interp.apply .str ⟨exG0, [.mk (.str "hello") []], 0⟩
        (fun ch => runC (.base (gain_life 5)) ch)).fresh = 0 :=
  claim10_replay_frame .str ⟨exG0, [.mk (.str "hello") []], 0⟩
    (fun ch => runC (.base (gain_life 5)) ch) (.mk (.str "hello") []) rfl

/-- C5 counterexample: the claim "decoding a recorded node's result as a
type different from the type originally encoded fails with DecodeError" is
false at a concrete input: `Err("boom")` encoded at `Result<String,String>`
decodes successfully at the different type `Result<Vec<String>,String>`
(serde's externally tagged `Err` variants coincide). -/
theorem claim5_type_stability_counterexample :
    enc .resStr (.error "boom") = some (.obj [("Err", .str "boom")]) ∧
    dec .resListStr (.obj [("Err", .str "boom")]) = some (.error "boom") ∧
    Ty.resStr ≠ Ty.resListStr :=
  ⟨rfl, rfl, by decide⟩

/-- C5 (amended): whenever the recorded node's result does not decode at
the requested type (its stored serialized shape is not the one that type
expects), the replay branch of `apply` fails fatally with `DecodeError`,
and the failure propagates as the fatal failure of any run reaching that
call — the continuation after the failing `apply` never runs and no
recovery is attempted.  (Decoding at a genuinely different type fails in
exactly this shape-mismatch case; types whose serialized forms overlap,
such as the two `Err` variants, decode successfully instead.) -/
theorem claim5_type_stability_amended (s : Ty) (int : Interp)
    (node : EffectTree)
    (hnode : int.effects.get? int.position = some node)
    (hdec : dec s node.result = none) :
    (∀ f, Interp.apply s int f =
      ⟨⟨int.game, int.effects, int.position + 1⟩, .error .decodeError, 0, 1, 0⟩) ∧
    (∀ (t : Ty) (sub : Comp s) (k : Ty.den s → Comp t),
      runC (.seq s sub k) int =
        ⟨⟨int.game, int.effects, int.position + 1⟩, .error .decodeError, 0, 1, 0⟩) := by
  constructor
  · intro f
    exact apply_replay_decfail int node f hnode hdec
  · intro t sub k
    exact runC_seq_replay_decfail sub k int node hnode hdec

/-- Witness for C5 (amended): a recorded number requested as a string is a
fatal `DecodeError`. -/
theorem claim5_type_stability_witness :
    Interp.apply .str ⟨exG0, [.mk (.num 0) []], 0⟩
        (fun ch => ⟨ch, .ok "x", 0, 0, 0⟩) =
      ⟨⟨exG0, [.mk (.num 0) []], 1⟩, .error .decodeError, 0, 1, 0⟩ :=
  (claim5_type_stability_amended .str ⟨exG0, [.mk (.num 0) []], 0⟩
    (.mk (.num 0) []) rfl rfl).1 (fun ch => ⟨ch, .ok "x", 0, 0, 0⟩)

/-- C6: Interpreter cursor invariant: over a whole run of one interpreter
whose cursor starts within its recorded list (as at every construction,
where it is `0`), the cursor only increases — the final cursor is the
initial cursor plus exactly one per `apply` call made at this nesting
level — and it never exceeds the recorded length at construction plus the
number of fresh calls made at this level.  Moreover any single `apply`
advances the cursor by exactly one regardless of branch. -/
theorem claim6_cursor_invariant (t : Ty) (c : Comp t) (int : Interp)
    (hstart : int.position ≤ int.effects.length) :
    int.position ≤ (runC c int).int.position ∧
    (runC c int).int.position = int.position + (runC c int).calls ∧
    (runC c int).int.position ≤ int.effects.length + (runC c int).freshTop ∧
    (∀ (t' : Ty) (int' : Interp) (f : Interp → RunRes (Ty.den t')),
      (Interp.apply t' int' f).int.position = int'.position + 1) := by
  obtain ⟨h1, _, h3⟩ := cursor_lemma c int hstart
  exact ⟨by omega, h1, h3, fun t' int' f => apply_position t' int' f⟩

/-- Witness for C6 at the one-call tree `gainOnly` from an empty record. -/
theorem claim6_cursor_invariant_witness :
    (0 : Nat) ≤ (runC gainOnly ⟨exG0, [], 0⟩).int.position ∧
    (runC gainOnly ⟨exG0, [], 0⟩).int.position =
      0 + (runC gainOnly ⟨exG0, [], 0⟩).calls ∧
    (runC gainOnly ⟨exG0, [], 0⟩).int.position ≤
      ([] : List EffectTree).length + (runC gainOnly ⟨exG0, [], 0⟩).freshTop ∧
    (Interp.apply .nat ⟨exG0, [], 0⟩ (fun ch => ⟨ch, .ok (3 : Nat), 0, 0, 0⟩)).int.position
      = 0 + 1 :=
  let h := claim6_cursor_invariant .unit gainOnly ⟨exG0, [], 0⟩ (Nat.le_refl 0)
  ⟨h.1, h.2.1, h.2.2.1,
   h.2.2.2 .nat ⟨exG0, [], 0⟩ (fun ch => ⟨ch, .ok (3 : Nat), 0, 0, 0⟩)⟩

/-- C1 counterexample: the claim as stated — replaying seeded with `E`
from the identical *initial* state yields the final state `S` again — is
false at a concrete input.  The one-call tree `gainOnly` run from a
20-life state produces a 25-life final state `S`; replaying it seeded with
the recorded effects from the same 20-life initial state leaves life at
20, not 25 (replay re-applies no state mutations). -/
theorem claim1_replay_equivalence_counterexample :
    (runC gainOnly ⟨exG0, [], 0⟩).int.game.life = 25 ∧
    (runC gainOnly ⟨exG0, (runC gainOnly ⟨exG0, [], 0⟩).int.effects, 0⟩).int.game.life = 20 ∧
    (20 : Nat) ≠ 25 :=
  ⟨rfl, rfl, by decide⟩

/-- C1 (amended): replay equivalence as the code actually provides it.
For every call tree whose top level is routed entirely through `apply`
(`Replayable`), executed once from an initial state with an empty record
and succeeding with value `v` and recorded effects `E`: re-running the
identical tree seeded with `E` replays wholly from `E` against any
starting state — in particular against the final state `S` of the first
run, which it therefore leaves at `S` — returning the same value, leaving
the state exactly as given (no mutation is re-applied), producing the
identical recorded-effects structure `E' = E`, and invoking zero domain
side-effect functions anywhere (the instrumented fresh-call count of the
replay is `0`). -/
theorem claim1_replay_equivalence_amended : ∀ {t : Ty} (c : Comp t),
    Replayable c → ∀ (g : Game) (v : Ty.den t),
    (runC c ⟨g, [], 0⟩).res = .ok v →
    ∀ (hg : Game),
    runC c ⟨hg, (runC c ⟨g, [], 0⟩).int.effects, 0⟩ =
      ⟨⟨hg, (runC c ⟨g, [], 0⟩).int.effects,
         (runC c ⟨g, [], 0⟩).int.effects.length⟩,
        .ok v, 0, (runC c ⟨g, [], 0⟩).int.effects.length, 0⟩ := by
  intro t c hrep g v hres hg
  obtain ⟨new, heff, hpos⟩ := freshRun_shape c g [] v hres
  have hrepl := replay_run c hrep g [] new v hres heff hg [] []
  simp only [List.nil_append, List.append_nil, List.length_nil, Nat.zero_add] at hrepl heff
  rw [heff]
  exact hrepl

/-- Witness for C1 (amended): replaying `gainOnly` seeded with its own
recorded effects, from the very initial state, replays from the record. -/
theorem claim1_replay_equivalence_witness :
    runC gainOnly ⟨exG0, (runC gainOnly ⟨exG0, [], 0⟩).int.effects, 0⟩ =
      ⟨⟨exG0, (runC gainOnly ⟨exG0, [], 0⟩).int.effects,
         (runC gainOnly ⟨exG0, [], 0⟩).int.effects.length⟩,
        .ok (), 0, (runC gainOnly ⟨exG0, [], 0⟩).int.effects.length, 0⟩ :=
  claim1_replay_equivalence_amended gainOnly
    (by
      unfold gainOnly
      exact Replayable.seq _ _ (fun _ => Replayable.ret ()))
    exG0 () rfl exG0

theorem getLast?_some_of_ne_nil {α : Type} :
    ∀ (l : List α), l ≠ [] → ∃ y, l.getLast? = some y := by
  intro l
  induction l with
  | nil => intro h; exact absurd rfl h
  | cons a as ih =>
    intro _
    cases as with
    | nil => exact ⟨a, rfl⟩
    | cons b bs =>
      obtain ⟨y, hy⟩ := ih (by simp)
      exact ⟨y, by simpa [List.getLast?_cons_cons] using hy⟩

/-- C4: Replacement dispatch trichotomy over the `"DRAW"` event: with no
applicable candidate, dispatch reports no replacement and `draw_card` runs
its default behavior unmodified; with exactly one applicable candidate
(one entry that decodes and whose `check` accepts the state), dispatch
returns that candidate's apply outcome, `draw_card` returns it and the
default never executes (and the candidate's outcome always exists — its
`applyEff` cannot be `none` when its `check` passed); with two or more
applicable candidates, the system reports the unresolved-choice fatal
condition instead of producing any outcome. -/
theorem claim4_dispatch_trichotomy (g : Game) :
    (applicableAlts g "DRAW" = [] →
      handle_replacement g "DRAW" = .noReplacement ∧
      draw_card g =
        (match g.library.getLast? with
         | some card =>
             ({ g with library := g.library.dropLast, hand := g.hand ++ [card] },
              .ok (.ok ("Drew " ++ card)))
         | none => (g, .ok (.error "Drew from empty library! 💀")))) ∧
    (∀ (e : DrawReplacement) (g' : Game) (r : Except String String),
      applicableAlts g "DRAW" = [e] → e.applyEff g = some (g', r) →
      handle_replacement g "DRAW" = .replaced g' r ∧
      draw_card g = (g', .ok r)) ∧
    (∀ e : DrawReplacement, applicableAlts g "DRAW" = [e] →
      e.applyEff g ≠ none) ∧
    (2 ≤ (applicableAlts g "DRAW").length →
      handle_replacement g "DRAW" = .unresolvedChoice ∧
      draw_card g = (g, .error .unresolvedChoice)) := by
  refine ⟨?_, ?_, ?_, ?_⟩
  · intro hz
    have hh : handle_replacement g "DRAW" = .noReplacement := by
      simp [handle_replacement, hz]
    exact ⟨hh, by simp [draw_card, hh]⟩
  · intro e g' r ho happ
    have hh : handle_replacement g "DRAW" = .replaced g' r := by
      simp [handle_replacement, ho, happ]
    exact ⟨hh, by simp [draw_card, hh]⟩
  · intro e ho
    have hmem : e ∈ applicableAlts g "DRAW" := by rw [ho]; simp
    have hcheck : e.check g = true := by
      have hc : e ∈ decodedCandidates g "DRAW" ∧ e.check g = true := by
        simpa [applicableAlts] using hmem
      exact hc.2
    cases e with
    | randomDiscard =>
      have hhand : g.hand ≠ [] := by
        simpa [DrawReplacement.check, List.isEmpty_iff] using hcheck
      obtain ⟨y, hy⟩ := getLast?_some_of_ne_nil g.hand hhand
      simp [DrawReplacement.applyEff, hy]
  · intro h2
    match halts : applicableAlts g "DRAW" with
    | [] => rw [halts] at h2; simp at h2
    | [e] => rw [halts] at h2; simp at h2
    | a :: b :: rest =>
      have hh : handle_replacement g "DRAW" = .unresolvedChoice := by
        simp [handle_replacement, halts]
      exact ⟨hh, by simp [draw_card, hh]⟩

/-- Witness for C4: the three regimes at concrete states — no registry
entry (default draws from the empty library, a domain error), one
applicable discard entry (full substitution), two applicable entries
(unresolved choice). -/
theorem claim4_dispatch_trichotomy_witness :
    (handle_replacement exG0 "DRAW" = .noReplacement ∧
     draw_card exG0 = (exG0, .ok (.error "Drew from empty library! 💀"))) ∧
    (handle_replacement ⟨20, [], ["B", "A"], [], [("DRAW", [serializedDiscardHandler])]⟩ "DRAW" =
       .replaced ⟨20, [], ["B"], ["A"], [("DRAW", [serializedDiscardHandler])]⟩ (.ok "Discarded A") ∧
     draw_card ⟨20, [], ["B", "A"], [], [("DRAW", [serializedDiscardHandler])]⟩ =
       (⟨20, [], ["B"], ["A"], [("DRAW", [serializedDiscardHandler])]⟩, .ok (.ok "Discarded A"))) ∧
    DrawReplacement.applyEff .randomDiscard
      ⟨20, [], ["B", "A"], [], [("DRAW", [serializedDiscardHandler])]⟩ ≠ none ∧
    (handle_replacement ⟨20, [], ["A"], [],
        [("DRAW", [serializedDiscardHandler, serializedDiscardHandler])]⟩ "DRAW" =
       .unresolvedChoice ∧
     draw_card ⟨20, [], ["A"], [],
        [("DRAW", [serializedDiscardHandler, serializedDiscardHandler])]⟩ =
       (⟨20, [], ["A"], [], [("DRAW", [serializedDiscardHandler, serializedDiscardHandler])]⟩,
        .error .unresolvedChoice)) :=
  ⟨(claim4_dispatch_trichotomy exG0).1 rfl,
   (claim4_dispatch_trichotomy ⟨20, [], ["B", "A"], [], [("DRAW", [serializedDiscardHandler])]⟩).2.1
     .randomDiscard ⟨20, [], ["B"], ["A"], [("DRAW", [serializedDiscardHandler])]⟩
     (.ok "Discarded A") rfl rfl,
   (claim4_dispatch_trichotomy ⟨20, [], ["B", "A"], [], [("DRAW", [serializedDiscardHandler])]⟩).2.2.1
     .randomDiscard rfl,
   (claim4_dispatch_trichotomy ⟨20, [], ["A"], [],
      [("DRAW", [serializedDiscardHandler, serializedDiscardHandler])]⟩).2.2.2 (by decide)⟩

/-- C8: Tolerant candidate decoding: a serialized registry entry under the
key that fails to decode is silently discarded — dispatch's decoded
candidate list (and hence the applicable-candidate list, which determines
the whole dispatch) is exactly the one obtained from the remaining
entries, decoded in registration order; decoding failure neither aborts
dispatch nor contributes a candidate. -/
theorem claim8_tolerant_decoding (g : Game) (key : String)
    (pre post : List Json) (bad : Json)
    (hlook : g.replacement_effects.lookup key = some (pre ++ bad :: post))
    (hbad : decodeHandler bad = none) :
    decodedCandidates g key = (pre ++ post).filterMap decodeHandler ∧
    applicableAlts g key =
      ((pre ++ post).filterMap decodeHandler).filter (fun e => e.check g) := by
  have h1 : decodedCandidates g key = (pre ++ bad :: post).filterMap decodeHandler := by
    simp [decodedCandidates, hlook]
  have h2 : (pre ++ bad :: post).filterMap decodeHandler =
      (pre ++ post).filterMap decodeHandler := by
    simp [List.filterMap_append, List.filterMap_cons, hbad]
  exact ⟨h1.trans h2, by simp [applicableAlts, h1, h2]⟩

/-- Witness for C8: a `null` registry entry (undecodable) ahead of a valid
one is dropped and dispatch sees exactly the valid entry. -/
theorem claim8_tolerant_decoding_witness :
    decodedCandidates ⟨20, [], ["A"], [], [("DRAW", [Json.null, serializedDiscardHandler])]⟩ "DRAW" =
      ([] ++ [serializedDiscardHandler]).filterMap decodeHandler ∧
    applicableAlts ⟨20, [], ["A"], [], [("DRAW", [Json.null, serializedDiscardHandler])]⟩ "DRAW" =
      (([] ++ [serializedDiscardHandler]).filterMap decodeHandler).filter
        (fun e => e.check ⟨20, [], ["A"], [], [("DRAW", [Json.null, serializedDiscardHandler])]⟩) :=
  claim8_tolerant_decoding ⟨20, [], ["A"], [], [("DRAW", [Json.null, serializedDiscardHandler])]⟩
    "DRAW" [] [serializedDiscardHandler] Json.null rfl rfl

/-- C7: The concrete scenario, with library `["A", "B"]` (so the `Vec` pop
draws `B` first): the first draw returns `Drew B` leaving library `[A]`,
hand `[B]`; the second returns `Drew A` leaving library `[]`, hand
`[B, A]`; registering the discard replacement adds the serialized handler
under `"DRAW"`; the next draw fires the replacement instead of the default,
returning `Discarded A` and leaving hand `[B]`, graveyard `[A]`; a
subsequent `gain_life(5)` adds exactly 5 to life and is recorded as an
independent sibling node next to the draw's node; and drawing from an
empty library with no applicable replacement returns the domain-level
`Err` value, not an interpreter error. -/
theorem claim7_concrete_scenario :
    draw_card scenarioStart = (⟨20, ["A"], ["B"], [], []⟩, .ok (.ok "Drew B")) ∧
    draw_card ⟨20, ["A"], ["B"], [], []⟩ =
      (⟨20, [], ["B", "A"], [], []⟩, .ok (.ok "Drew A")) ∧
    (replace_draw_with_discard ⟨20, [], ["B", "A"], [], []⟩).1 =
      ⟨20, [], ["B", "A"], [], [("DRAW", [serializedDiscardHandler])]⟩ ∧
    draw_card ⟨20, [], ["B", "A"], [], [("DRAW", [serializedDiscardHandler])]⟩ =
      (⟨20, [], ["B"], ["A"], [("DRAW", [serializedDiscardHandler])]⟩, .ok (.ok "Discarded A")) ∧
    runC drawThenGain ⟨⟨20, [], ["B", "A"], [], [("DRAW", [serializedDiscardHandler])]⟩, [], 0⟩ =
      ⟨⟨⟨25, [], ["B"], ["A"], [("DRAW", [serializedDiscardHandler])]⟩,
        [.mk (.obj [("Ok", .str "Discarded A")]) [], .mk (.str "Added 5 life") []], 2⟩,
       .ok (), 2, 2, 2⟩ ∧
    draw_card ⟨25, [], [], [], []⟩ =
      (⟨25, [], [], [], []⟩, .ok (.error "Drew from empty library! 💀")) :=
  ⟨rfl, rfl, rfl, rfl, rfl, rfl⟩
